import Mathlib

/-!
Shallow embedding of the CountrySnap game engine.

Sources: `src/App.tsx` (game state, guess judging, Levenshtein distance,
round/session lifecycle, leaderboard) and `src/components/Map.tsx`
(viewport framing scale).  JS strings are modelled as `List Char`; JS
numbers are modelled as `Int`/`Nat`/`ℚ` as appropriate, with a small
explicit model of the IEEE special values where the code can divide by
zero.  ASCII case folding (`Char.toLower`) models `toLowerCase`.
-/

/-- JS `String.prototype.trim` on a `List Char`: whitespace removed from both ends. -/
def trimList (s : List Char) : List Char :=
  ((s.dropWhile Char.isWhitespace).reverse.dropWhile Char.isWhitespace).reverse

/-- JS `String.prototype.toLowerCase`, modelled character-wise. -/
def lowerList (s : List Char) : List Char :=
  s.map Char.toLower

/-- Does the second list occur as an initial segment of the first? -/
def leadMatch : List Char → List Char → Bool
  | _, [] => true
  | [], _ :: _ => false
  | c :: s, d :: t => c == d && leadMatch s t

/-- JS `String.prototype.includes`: does the second list occur contiguously in the first? -/
def hasSub : List Char → List Char → Bool
  | [], t => leadMatch [] t
  | c :: s, t => leadMatch (c :: s) t || hasSub s t

/-- Inner `j` loop of `levenshteinDistance` (App.tsx lines 589-600): computes the rest
of matrix row `i` given the remaining characters of `a`, the diagonal entry
`matrix[i-1][j-1]`, the rest of the previous row starting at `matrix[i-1][j]`, and the
entry `matrix[i][j-1]` just written. -/
def fillRow (bc : Char) : List Char → Nat → List Nat → Nat → List Nat
  | [], _, _, _ => []
  | _ :: _, _, [], _ => []
  | ac :: arest, diag, up :: uprest, left =>
    let cur := if bc = ac then diag else min (diag + 1) (min (left + 1) (up + 1))
    cur :: fillRow bc arest up uprest cur

/-- One iteration of the outer `i` loop of `levenshteinDistance`: matrix row `i`
from row `i-1` (whose first entry is `i-1`, so the new row starts with `i`). -/
def nextRow (bc : Char) (a : List Char) (prev : List Nat) : List Nat :=
  match prev with
  | [] => []
  | d :: rest => (d + 1) :: fillRow bc a d rest (d + 1)

/-- `levenshteinDistance(a, b)` from App.tsx lines 579-603: the classic dynamic
programming table with `b.length + 1` rows and `a.length + 1` columns, returning
`matrix[b.length][a.length]`. -/
def levenshteinDistance (a b : List Char) : Nat :=
  (b.foldl (fun r bc => nextRow bc a r) (List.range (a.length + 1))).getD a.length 0

/-- The standard reference recursive definition of Levenshtein distance. -/
def lev : List Char → List Char → Nat
  | [], ys => ys.length
  | _ :: xs, [] => xs.length + 1
  | x :: xs, y :: ys =>
    if x = y then lev xs ys
    else min (lev xs ys + 1) (min (lev (x :: xs) ys + 1) (lev xs (y :: ys) + 1))
termination_by xs ys => xs.length + ys.length

/-- Edit scripts: `Edits n xs ys` holds when `xs` can be rewritten into `ys` using
`n` single-character edits (deletion, insertion, substitution).  This is the
relational specification used to prove that `lev` is invariant under reversal. -/
inductive Edits : Nat → List Char → List Char → Prop where
  | nil : Edits 0 [] []
  | keep (c : Char) {n : Nat} {xs ys : List Char} :
      Edits n xs ys → Edits n (c :: xs) (c :: ys)
  | del (c : Char) {n : Nat} {xs ys : List Char} :
      Edits n xs ys → Edits (n + 1) (c :: xs) ys
  | ins (c : Char) {n : Nat} {xs ys : List Char} :
      Edits n xs ys → Edits (n + 1) xs (c :: ys)
  | sub (c d : Char) {n : Nat} {xs ys : List Char} :
      Edits n xs ys → Edits (n + 1) (c :: xs) (d :: ys)

/-- Specification of a DP row: starting from accumulated (already reversed) prefix `v`
of `a`, the row lists `lev u w` for `w` running over `v` extended by successive
characters of the remaining input. -/
def rowFrom (u : List Char) : List Char → List Char → List Nat
  | v, [] => [lev u v]
  | v, c :: rest => lev u v :: rowFrom u (c :: v) rest

/-- `checkMatch` from `handleSubmitGuess` (App.tsx lines 231-249).  The guess argument
is already normalised (lower-cased then trimmed) by the caller; the acceptable name is
lower-cased but not trimmed, and an absent or empty name is rejected up front (JS
falsiness of the empty string). -/
def checkMatch (guess : List Char) (target : Option (List Char)) : Bool :=
  match target with
  | none => false
  | some t =>
    if t = [] then false
    else
      let nt := lowerList t
      if nt = guess then true
      else if decide (3 < guess.length) && hasSub nt guess then true
      else
        let dist := levenshteinDistance nt guess
        let len := nt.length
        if len ≤ 3 then decide (dist = 0)
        else if len ≤ 7 then decide (dist ≤ 1)
        else if len ≤ 12 then decide (dist ≤ 2)
        else decide (dist ≤ 3)

/-- The per-name judge: normalise the raw guess exactly as App.tsx line 227 does
(`userGuess.toLowerCase().trim()`) and run `checkMatch` against one acceptable name. -/
def judgeCode (guessRaw name : List Char) : Bool :=
  checkMatch (trimList (lowerList guessRaw)) (some name)

/-- The threshold step function named by the specification: 0 for names of length
at most 3, then 1 (length at most 7), 2 (length at most 12), 3 beyond. -/
def levThreshold (len : Nat) : Nat :=
  if len ≤ 3 then 0 else if len ≤ 7 then 1 else if len ≤ 12 then 2 else 3

/-- Modelled from the spec wording of the Match Judge claim: normalise BOTH guess and
name by trimming and lower-casing, then accept on exact equality, on a substring hit
for guesses longer than 3 characters, or when the Levenshtein distance is within the
length-determined threshold.  (Comparison definition only; the code is `judgeCode`.) -/
def judgeSpec (guessRaw name : List Char) : Bool :=
  let g := trimList (lowerList guessRaw)
  let n := trimList (lowerList name)
  g == n || (decide (3 < g.length) && hasSub n g) || decide (lev n g ≤ levThreshold n.length)

/-- `GameStatus` from `src/types.ts`. -/
inductive GameStatus where
  | LOADING
  | IDLE
  | PLAYING
  | SUCCESS
  | FAILURE
deriving DecidableEq, Repr

/-- `Player` from `src/types.ts`.  The source stores `id` as a string built from
`Date.now()`; the identifier is opaque, so it is modelled as a `Nat` supplied by
the caller of `addPlayer`. -/
structure Player where
  id : Nat
  name : List Char
  score : Int
  color : String
deriving DecidableEq, Repr

/-- A GeoJSON feature as used by the game: stable id plus `properties.name`.
(The boundary geometry is consumed only by the excluded rendering collaborator.) -/
structure CountryFeature where
  featId : Option String
  name : List Char
deriving DecidableEq, Repr

/-- `CountryDetails` from `src/types.ts`. -/
structure CountryDetails where
  flag : String
  name : List Char
  capital : Option String
  region : Option String
deriving DecidableEq, Repr

/-- The `type` field of the transient message (`'error' | 'success' | 'info'`). -/
inductive MessageKind where
  | error
  | success
  | info
deriving DecidableEq, Repr

/-- The transient message state of App.tsx. -/
structure GameMessage where
  text : List Char
  kind : MessageKind
deriving DecidableEq, Repr

/-- `LeaderboardEntry` from `src/types.ts`. -/
structure LBEntry where
  name : List Char
  score : Int
  date : String
deriving DecidableEq, Repr

/-- The engine state: the `useState` fields of the `App` component that take part in
game logic (rendering-only state such as window dimensions and the PWA install prompt
is omitted).  `round` is ghost bookkeeping counting round starts; it is used only to
state the stale-response property and is touched by no handler branch. -/
structure AppState where
  geoData : Option (List CountryFeature)
  targetCountry : Option CountryFeature
  countryDetails : Option CountryDetails
  gameStatus : GameStatus
  userGuess : List Char
  hints : List (List Char)
  isLoadingHint : Bool
  message : Option GameMessage
  lives : Int
  players : List Player
  currentPlayerIndex : Nat
  newPlayerName : List Char
  leaderboard : List LBEntry
  showLeaderboard : Bool
  round : Nat
deriving DecidableEq, Repr

/-- `PLAYER_COLORS` (App.tsx lines 7-9). -/
def PLAYER_COLORS : List String :=
  ["text-blue-400", "text-green-400", "text-purple-400",
   "text-pink-400", "text-yellow-400", "text-cyan-400"]

/-- `Array.prototype.map` with the element index, as used by
`updateCurrentPlayerScore`; `k` is the index of the first element. -/
def mapWithIndex (f : Nat → Player → Player) : Nat → List Player → List Player
  | _, [] => []
  | k, p :: ps => f k p :: mapWithIndex f (k + 1) ps

/-- `updateCurrentPlayerScore` (App.tsx lines 177-181): add `points` to the score of
the player at `currentPlayerIndex`, leaving every other player untouched. -/
def updateCurrentPlayerScore (s : AppState) (points : Int) : AppState :=
  let f := fun (i : Nat) (p : Player) =>
    if i = s.currentPlayerIndex then { p with score := p.score + points } else p
  { s with players := mapWithIndex f 0 s.players }

/-- `addPlayer` (App.tsx lines 91-103).  Only guard in the source: the new name must be
non-empty after trimming.  `newId` models the `Date.now().toString()` identifier. -/
def addPlayer (s : AppState) (newId : Nat) : AppState :=
  if trimList s.newPlayerName = [] then s
  else
    let color := PLAYER_COLORS.getD (s.players.length % PLAYER_COLORS.length) ("")
    let newPlayer : Player := { id := newId, name := trimList s.newPlayerName, score := 0, color := color }
    { s with players := s.players ++ [newPlayer], newPlayerName := [] }

/-- `removePlayer` (App.tsx lines 105-107). -/
def removePlayer (s : AppState) (pid : Nat) : AppState :=
  { s with players := s.players.filter (fun p => p.id ≠ pid) }

/-- Synchronous part of `startNewRound` (App.tsx lines 121-135): no-op without map
data; otherwise rotate the current-turn pointer (unless this is the first round of the
session), reset the round state and zoom out.  The ghost `round` counter is bumped so
that asynchronous completions can be told apart by issuing round. -/
def startNewRound (s : AppState) (isFirstRound : Bool) : AppState :=
  match s.geoData with
  | none => s
  | some _ =>
    let s1 := if isFirstRound then s
              else { s with currentPlayerIndex := (s.currentPlayerIndex + 1) % s.players.length }
    { s1 with
      gameStatus := GameStatus.IDLE,
      targetCountry := none,
      countryDetails := none,
      userGuess := [],
      hints := [],
      message := none,
      lives := 3,
      round := s.round + 1 }

/-- The `setTimeout` body of `startNewRound` (App.tsx lines 138-173): select the
feature at position `k` of the catalog (the source draws `k` uniformly at random),
reveal it and enter `PLAYING`; the country-facts fetch is issued here. -/
def roundTimeout (s : AppState) (k : Nat) : AppState :=
  match s.geoData with
  | none => s
  | some feats =>
    { s with
      targetCountry := some (feats.getD k { featId := none, name := [] }),
      gameStatus := GameStatus.PLAYING }

/-- The default player synthesised by `startGameSession` when the roster is empty
(App.tsx line 113). -/
def defaultPlayer : Player :=
  { id := 1, name := ['P', 'l', 'a', 'y', 'e', 'r', ' ', '1'], score := 0,
    color := PLAYER_COLORS.getD 0 ("") }

/-- `startGameSession` (App.tsx lines 110-118): ensure a non-empty roster, reset the
current-turn pointer to the first player, then start the first round of the session. -/
def startGameSession (s : AppState) : AppState :=
  let active := if s.players = [] then [defaultPlayer] else s.players
  startNewRound { s with players := active, currentPlayerIndex := 0 } true

/-- A pending hint request, tagged (ghost) with the round in which it was issued. -/
structure HintRequest where
  forRound : Nat
  countryName : List Char
  existing : List (List Char)
deriving DecidableEq, Repr

/-- Issuing part of `handleRequestHint` (App.tsx lines 184-190): rejected while no
target exists or while another request is in flight; otherwise the in-flight flag is
set and a request is handed to the external hint generator. -/
def handleRequestHint (s : AppState) : AppState × Option HintRequest :=
  match s.targetCountry with
  | none => (s, none)
  | some tc =>
    if s.isLoadingHint then (s, none)
    else ({ s with isLoadingHint := true },
          some { forRound := s.round, countryName := tc.name, existing := s.hints })

/-- A completed country-facts fetch.  `forRound` is ghost bookkeeping recording the
round during which the fetch was issued (App.tsx line 145); the payload is the record
built by the `.then` handler (or the fallback record of the `.catch` handler). -/
structure FactsResponse where
  forRound : Nat
  details : CountryDetails
deriving DecidableEq, Repr

/-- The completion handler of the country-facts fetch (App.tsx lines 150-166): the
details are written to state unconditionally — the source performs no check that the
response still belongs to the active round. -/
def applyFactsResponse (s : AppState) (r : FactsResponse) : AppState :=
  { s with countryDetails := some r.details }

/-- A completed hint generation, tagged (ghost) with its issuing round. -/
structure HintResponse where
  forRound : Nat
  text : List Char
deriving DecidableEq, Repr

/-- The completion of `handleRequestHint` (App.tsx lines 187-189): the hint is appended
and the in-flight flag cleared, with no check that the round is still the same. -/
def applyHintResponse (s : AppState) (r : HintResponse) : AppState :=
  { s with hints := s.hints ++ [r.text], isLoadingHint := false }

/-- `handleSkip` (App.tsx lines 193-198). -/
def handleSkip (s : AppState) : AppState :=
  if s.gameStatus ≠ GameStatus.PLAYING then s
  else
    updateCurrentPlayerScore
      { s with lives := max 0 (s.lives - 1), gameStatus := GameStatus.FAILURE } (-5)

/-- The `isCorrect` expression of `handleSubmitGuess` (App.tsx line 251): the judge run
against the canonical GeoJSON name and, when facts have resolved, the common name. -/
def submitIsCorrect (s : AppState) (tc : CountryFeature) : Bool :=
  let guess := trimList (lowerList s.userGuess)
  checkMatch guess (some tc.name) || checkMatch guess (Option.map CountryDetails.name s.countryDetails)

/-- `handleSubmitGuess` (App.tsx lines 223-270).  Guard order as in the source:
missing target, guess empty after trimming, status other than `PLAYING` each make the
call a no-op.  A correct guess sets `SUCCESS` and +5; a wrong one costs a life and 5
points, failing the round when no life is left and otherwise surfacing the transient
"Incorrect!" message (its delayed self-clearing timer is an excluded UI effect). -/
def handleSubmitGuess (s : AppState) : AppState :=
  match s.targetCountry with
  | none => s
  | some tc =>
    if trimList s.userGuess = [] then s
    else if s.gameStatus ≠ GameStatus.PLAYING then s
    else if submitIsCorrect s tc then
      updateCurrentPlayerScore { s with gameStatus := GameStatus.SUCCESS } 5
    else
      let newLives := s.lives - 1
      let s1 := updateCurrentPlayerScore { s with lives := newLives } (-5)
      if newLives ≤ 0 then { s1 with gameStatus := GameStatus.FAILURE }
      else { s1 with message := some { text := ("Incorrect!").toList, kind := MessageKind.error } }

/-- Stable insertion of a leaderboard entry into a list sorted by descending score:
the new entry goes in front of the first entry whose score does not exceed it.  This
is the unique behaviour of the ECMAScript (stable) `Array.prototype.sort` under the
comparator `(a, b) => b.score - a.score` used at App.tsx line 209. -/
def insertEntry (e : LBEntry) : List LBEntry → List LBEntry
  | [] => [e]
  | h :: t => if h.score ≤ e.score then e :: h :: t else h :: insertEntry e t

/-- Stable sort by descending score (model of `Array.prototype.sort` with the
comparator `(a, b) => b.score - a.score`). -/
def sortEntries (l : List LBEntry) : List LBEntry :=
  l.foldr insertEntry []

/-- `handleEndGame` (App.tsx lines 201-220): keep only players with positive scores as
new entries (`today` models `new Date().toISOString()`), merge with the existing
ledger, sort descending by score, keep the top 50, then reset roster and round. -/
def handleEndGame (s : AppState) (today : String) : AppState :=
  let newEntries :=
    (s.players.map (fun p => { name := p.name, score := p.score, date := today : LBEntry })).filter
      (fun e => decide (0 < e.score))
  let updated := (sortEntries (s.leaderboard ++ newEntries)).take 50
  { s with
    leaderboard := updated,
    players := [],
    gameStatus := GameStatus.IDLE,
    showLeaderboard := true,
    targetCountry := none }

/-- A JS number restricted to what the viewport computation can produce: a finite
value (modelled as a rational), one of the two infinities, or NaN. -/
inductive JSNum where
  | nan
  | posInf
  | negInf
  | fin (q : ℚ)
deriving DecidableEq, Repr

/-- JS division restricted to the operand shapes occurring in the viewport framer:
finite over finite, with the IEEE rules for a zero divisor (positive dividend gives
positive infinity, zero gives NaN).  Other operand shapes never occur there and are
mapped to NaN. -/
def jsDiv : JSNum → JSNum → JSNum
  | JSNum.fin a, JSNum.fin b =>
    if b = 0 then (if a = 0 then JSNum.nan else if 0 < a then JSNum.posInf else JSNum.negInf)
    else JSNum.fin (a / b)
  | _, _ => JSNum.nan

/-- JS `Math.max`: NaN-propagating maximum. -/
def jsMax : JSNum → JSNum → JSNum
  | JSNum.nan, _ => JSNum.nan
  | _, JSNum.nan => JSNum.nan
  | JSNum.posInf, _ => JSNum.posInf
  | _, JSNum.posInf => JSNum.posInf
  | JSNum.negInf, x => x
  | x, JSNum.negInf => x
  | JSNum.fin a, JSNum.fin b => JSNum.fin (max a b)

/-- JS `Math.min`: NaN-propagating minimum. -/
def jsMin : JSNum → JSNum → JSNum
  | JSNum.nan, _ => JSNum.nan
  | _, JSNum.nan => JSNum.nan
  | JSNum.negInf, _ => JSNum.negInf
  | _, JSNum.negInf => JSNum.negInf
  | JSNum.posInf, x => x
  | x, JSNum.posInf => x
  | JSNum.fin a, JSNum.fin b => JSNum.fin (min a b)

/-- The scale computation of the viewport framer (`Map.tsx` line 107):
`Math.max(1, Math.min(50, 0.85 / Math.max(dx / width, dy / height)))`, with the
bounding-box extents and canvas dimensions as exact rationals. -/
def frameScale (dx dy w h : ℚ) : JSNum :=
  jsMax (JSNum.fin 1)
    (jsMin (JSNum.fin 50)
      (jsDiv (JSNum.fin (17 / 20))
        (jsMax (jsDiv (JSNum.fin dx) (JSNum.fin w)) (jsDiv (JSNum.fin dy) (JSNum.fin h)))))

/-- Modelled from the spec wording of the Viewport Framer claim:
`clamp(0.85 / max(dx/w, dy/h), lower = 1, upper = 50)`, a zero ratio falling back to
the upper clamp bound.  (Comparison definition only; the code is `frameScale`.) -/
def frameScaleSpec (dx dy w h : ℚ) : ℚ :=
  let r := max (dx / w) (dy / h)
  if r = 0 then 50 else max 1 (min 50 (17 / 20 / r))

/-- One user event of a running round: typing a guess and submitting it, or pressing
the skip button. -/
inductive GEvent where
  | guess (g : List Char)
  | skipRound
deriving DecidableEq, Repr

/-- Process one event: a guess event writes the typed text into `userGuess` (the
controlled input of App.tsx line 533) and fires `handleSubmitGuess`. -/
def stepEv (s : AppState) : GEvent → AppState
  | GEvent.guess g => handleSubmitGuess { s with userGuess := g }
  | GEvent.skipRound => handleSkip s

/-- Process a sequence of round events in order. -/
def runEvents (s : AppState) : List GEvent → AppState
  | [] => s
  | e :: rest => runEvents (stepEv s e) rest

/-- Would submitting `g` in state `s` be accepted as a correct guess?  Mirrors the
guards and the `isCorrect` expression of `handleSubmitGuess`. -/
def isCorrectSubmission (s : AppState) (g : List Char) : Bool :=
  match s.targetCountry with
  | none => false
  | some tc =>
    decide (trimList g ≠ []) && decide (s.gameStatus = GameStatus.PLAYING)
      && submitIsCorrect { s with userGuess := g } tc

/-- Did the event sequence ever press skip while the round was in `PLAYING`? -/
def skippedWhilePlaying (s : AppState) : List GEvent → Bool
  | [] => false
  | e :: rest =>
    (match e with
     | GEvent.skipRound => decide (s.gameStatus = GameStatus.PLAYING)
     | GEvent.guess _ => false) || skippedWhilePlaying (stepEv s e) rest

/-- Did the event sequence ever submit a guess that the judge accepted while the
round was in `PLAYING`? -/
def correctGuessOccurred (s : AppState) : List GEvent → Bool
  | [] => false
  | e :: rest =>
    (match e with
     | GEvent.guess g => isCorrectSubmission s g
     | GEvent.skipRound => false) || correctGuessOccurred (stepEv s e) rest

/-- The state invariant maintained by round events: lives stay within `[0, 3]`, a
round still in `PLAYING` has a life left, and a round with no life left has failed. -/
def GoodRound (s : AppState) : Prop :=
  0 ≤ s.lives ∧ s.lives ≤ 3 ∧ (s.gameStatus = GameStatus.PLAYING → 0 < s.lives)
    ∧ (s.lives = 0 → s.gameStatus = GameStatus.FAILURE)

/-- An engine state with every field at its initial `useState` value
(App.tsx lines 16-33), with map data still absent. -/
def emptyState : AppState :=
  { geoData := none, targetCountry := none, countryDetails := none,
    gameStatus := GameStatus.IDLE, userGuess := [], hints := [], isLoadingHint := false,
    message := none, lives := 3, players := [], currentPlayerIndex := 0,
    newPlayerName := [], leaderboard := [], showLeaderboard := false, round := 0 }

/-- A sample catalog feature. -/
def franceFeature : CountryFeature :=
  { featId := some ("FRA"), name := ['F', 'r', 'a', 'n', 'c', 'e'] }

/-- A second sample catalog feature. -/
def italyFeature : CountryFeature :=
  { featId := some ("ITA"), name := ['I', 't', 'a', 'l', 'y'] }

/-- A three-player roster used by the turn-rotation claim. -/
def threePlayers : List Player :=
  [{ id := 10, name := ['A'], score := 0, color := "text-blue-400" },
   { id := 11, name := ['B'], score := 0, color := "text-green-400" },
   { id := 12, name := ['C'], score := 0, color := "text-purple-400" }]

/-- A menu state with map data loaded and three players registered. -/
def menuState3 : AppState :=
  { emptyState with geoData := some [franceFeature, italyFeature], players := threePlayers }

/-- The succession of round starts of a session of `menuState3`: index 0 is the
session start (which runs the first round), index `k + 1` is the `k + 1`-st call of
`startNewRound` after it. -/
def roundsOf3 : Nat → AppState
  | 0 => startGameSession menuState3
  | k + 1 => startNewRound (roundsOf3 k) false

/-- A freshly started round in mid-session used as a concrete witness state: the
current player is the second of three, the target is France, facts have resolved. -/
def playingState : AppState :=
  { menuState3 with
    targetCountry := some franceFeature,
    countryDetails := some { flag := "", name := ['F', 'r', 'a', 'n', 'c', 'e'],
                             capital := none, region := none },
    gameStatus := GameStatus.PLAYING,
    currentPlayerIndex := 1,
    round := 2 }

lemma lev_nil_left (ys : List Char) : lev [] ys = ys.length := by simp [lev]

lemma lev_nil_right (xs : List Char) : lev xs [] = xs.length := by
  cases xs <;> simp [lev]

lemma lev_cons_cons (x y : Char) (xs ys : List Char) :
    lev (x :: xs) (y :: ys) =
      if x = y then lev xs ys
      else min (lev xs ys + 1) (min (lev (x :: xs) ys + 1) (lev xs (y :: ys) + 1)) := by
  rw [lev]

lemma lev_self (xs : List Char) : lev xs xs = 0 := by
  induction xs with
  | nil => simp [lev]
  | cons x xs ih => rw [lev_cons_cons, if_pos rfl]; exact ih

lemma lev_adjacent : ∀ (n : Nat) (xs ys : List Char), xs.length + ys.length ≤ n →
    (∀ c, lev (c :: xs) ys ≤ lev xs ys + 1) ∧
    (∀ c, lev xs (c :: ys) ≤ lev xs ys + 1) ∧
    (∀ c, lev xs ys ≤ lev (c :: xs) ys + 1) ∧
    (∀ c, lev xs ys ≤ lev xs (c :: ys) + 1) := by
  intro n
  induction n with
  | zero =>
    intro xs ys h
    have hx : xs = [] := by cases xs <;> simp_all
    have hy : ys = [] := by cases ys <;> simp_all
    subst hx; subst hy
    refine ⟨?_, ?_, ?_, ?_⟩ <;> intro c <;> simp [lev]
  | succ n ih =>
    intro xs ys h
    refine ⟨?_, ?_, ?_, ?_⟩
    · intro c
      cases ys with
      | nil => simp only [lev_nil_right, List.length_cons]; omega
      | cons d ys =>
        by_cases hcd : c = d
        · subst hcd
          rw [lev_cons_cons, if_pos rfl]
          have h4 := (ih xs ys (by simp at h ⊢; omega)).2.2.2 c
          omega
        · rw [lev_cons_cons, if_neg hcd]
          omega
    · intro c
      cases xs with
      | nil => simp only [lev_nil_left, List.length_cons]; omega
      | cons x xs =>
        by_cases hxc : x = c
        · subst hxc
          rw [lev_cons_cons, if_pos rfl]
          have h3 := (ih xs ys (by simp at h ⊢; omega)).2.2.1 x
          omega
        · rw [lev_cons_cons, if_neg hxc]
          omega
    · intro c
      cases ys with
      | nil => simp only [lev_nil_right, List.length_cons]; omega
      | cons d ys =>
        by_cases hcd : c = d
        · subst hcd
          rw [lev_cons_cons, if_pos rfl]
          have h2 := (ih xs ys (by simp at h ⊢; omega)).2.1 c
          omega
        · rw [lev_cons_cons, if_neg hcd]
          have h2 := (ih xs ys (by simp at h ⊢; omega)).2.1 d
          have h3 := (ih xs ys (by simp at h ⊢; omega)).2.2.1 c
          omega
    · intro c
      cases xs with
      | nil => simp only [lev_nil_left, List.length_cons]; omega
      | cons x xs =>
        by_cases hxc : x = c
        · subst hxc
          rw [lev_cons_cons, if_pos rfl]
          have h1 := (ih xs ys (by simp at h ⊢; omega)).1 x
          omega
        · rw [lev_cons_cons, if_neg hxc]
          have h1 := (ih xs ys (by simp at h ⊢; omega)).1 x
          have h4 := (ih xs ys (by simp at h ⊢; omega)).2.2.2 c
          omega


lemma lev_cons_left_le (c : Char) (xs ys : List Char) : lev (c :: xs) ys ≤ lev xs ys + 1 :=
  (lev_adjacent (xs.length + ys.length) xs ys le_rfl).1 c

lemma lev_cons_right_le (c : Char) (xs ys : List Char) : lev xs (c :: ys) ≤ lev xs ys + 1 :=
  (lev_adjacent (xs.length + ys.length) xs ys le_rfl).2.1 c

lemma lev_le_of_edits : ∀ {n : Nat} {xs ys : List Char}, Edits n xs ys → lev xs ys ≤ n := by
  intro n xs ys h
  induction h with
  | nil => simp [lev]
  | keep c h ih => rw [lev_cons_cons, if_pos rfl]; exact ih
  | del c h ih => exact (lev_cons_left_le c _ _).trans (by omega)
  | ins c h ih => exact (lev_cons_right_le c _ _).trans (by omega)
  | sub c d h ih =>
    by_cases hcd : c = d
    · subst hcd; rw [lev_cons_cons, if_pos rfl]; omega
    · rw [lev_cons_cons, if_neg hcd]; omega

lemma edits_of_lev : ∀ (n : Nat) (xs ys : List Char), xs.length + ys.length ≤ n →
    Edits (lev xs ys) xs ys := by
  intro n
  induction n with
  | zero =>
    intro xs ys h
    have hx : xs = [] := by cases xs <;> simp_all
    have hy : ys = [] := by cases ys <;> simp_all
    subst hx; subst hy
    rw [lev_nil_left]; exact Edits.nil
  | succ n ih =>
    intro xs ys h
    cases xs with
    | nil =>
      cases ys with
      | nil => rw [lev_nil_left]; exact Edits.nil
      | cons y ys =>
        rw [lev_nil_left, List.length_cons]
        exact Edits.ins y (by have := ih [] ys (by simp at h ⊢; omega); rwa [lev_nil_left] at this)
    | cons x xs =>
      cases ys with
      | nil =>
        rw [lev_nil_right, List.length_cons]
        exact Edits.del x (by have := ih xs [] (by simp at h ⊢; omega); rwa [lev_nil_right] at this)
      | cons y ys =>
        by_cases hxy : x = y
        · subst hxy
          rw [lev_cons_cons, if_pos rfl]
          exact Edits.keep x (ih xs ys (by simp at h ⊢; omega))
        · rw [lev_cons_cons, if_neg hxy]
          have hsplit : min (lev xs ys + 1) (min (lev (x :: xs) ys + 1) (lev xs (y :: ys) + 1))
                = lev xs ys + 1
              ∨ min (lev xs ys + 1) (min (lev (x :: xs) ys + 1) (lev xs (y :: ys) + 1))
                = lev (x :: xs) ys + 1
              ∨ min (lev xs ys + 1) (min (lev (x :: xs) ys + 1) (lev xs (y :: ys) + 1))
                = lev xs (y :: ys) + 1 := by omega
          rcases hsplit with h1 | h1 | h1 <;> rw [h1]
          · exact Edits.sub x y (ih xs ys (by simp at h ⊢; omega))
          · exact Edits.ins y (ih (x :: xs) ys (by simp at h ⊢; omega))
          · exact Edits.del x (ih xs (y :: ys) (by simp at h ⊢; omega))

lemma edits_keep_snoc (c : Char) : ∀ {n : Nat} {xs ys : List Char}, Edits n xs ys →
    Edits n (xs ++ [c]) (ys ++ [c]) := by
  intro n xs ys h
  induction h with
  | nil => exact Edits.keep c Edits.nil
  | keep d h ih => exact Edits.keep d ih
  | del d h ih => exact Edits.del d ih
  | ins d h ih => exact Edits.ins d ih
  | sub d e h ih => exact Edits.sub d e ih

lemma edits_del_snoc (c : Char) : ∀ {n : Nat} {xs ys : List Char}, Edits n xs ys →
    Edits (n + 1) (xs ++ [c]) ys := by
  intro n xs ys h
  induction h with
  | nil => exact Edits.del c Edits.nil
  | keep d h ih => exact Edits.keep d ih
  | del d h ih => exact Edits.del d ih
  | ins d h ih => exact Edits.ins d ih
  | sub d e h ih => exact Edits.sub d e ih

lemma edits_ins_snoc (c : Char) : ∀ {n : Nat} {xs ys : List Char}, Edits n xs ys →
    Edits (n + 1) xs (ys ++ [c]) := by
  intro n xs ys h
  induction h with
  | nil => exact Edits.ins c Edits.nil
  | keep d h ih => exact Edits.keep d ih
  | del d h ih => exact Edits.del d ih
  | ins d h ih => exact Edits.ins d ih
  | sub d e h ih => exact Edits.sub d e ih

lemma edits_sub_snoc (c d : Char) : ∀ {n : Nat} {xs ys : List Char}, Edits n xs ys →
    Edits (n + 1) (xs ++ [c]) (ys ++ [d]) := by
  intro n xs ys h
  induction h with
  | nil => exact Edits.sub c d Edits.nil
  | keep e h ih => exact Edits.keep e ih
  | del e h ih => exact Edits.del e ih
  | ins e h ih => exact Edits.ins e ih
  | sub e f h ih => exact Edits.sub e f ih

lemma edits_reverse : ∀ {n : Nat} {xs ys : List Char}, Edits n xs ys →
    Edits n xs.reverse ys.reverse := by
  intro n xs ys h
  induction h with
  | nil => exact Edits.nil
  | keep c h ih => rw [List.reverse_cons, List.reverse_cons]; exact edits_keep_snoc c ih
  | del c h ih => rw [List.reverse_cons]; exact edits_del_snoc c ih
  | ins c h ih => rw [List.reverse_cons]; exact edits_ins_snoc c ih
  | sub c d h ih => rw [List.reverse_cons, List.reverse_cons]; exact edits_sub_snoc c d ih

lemma edits_symm : ∀ {n : Nat} {xs ys : List Char}, Edits n xs ys → Edits n ys xs := by
  intro n xs ys h
  induction h with
  | nil => exact Edits.nil
  | keep c h ih => exact Edits.keep c ih
  | del c h ih => exact Edits.ins c ih
  | ins c h ih => exact Edits.del c ih
  | sub c d h ih => exact Edits.sub d c ih

lemma lev_reverse_reverse (a b : List Char) : lev a.reverse b.reverse = lev a b := by
  apply le_antisymm
  · exact lev_le_of_edits (edits_reverse (edits_of_lev (a.length + b.length) a b le_rfl))
  · have h := edits_reverse (edits_of_lev (a.reverse.length + b.reverse.length) a.reverse b.reverse le_rfl)
    rw [List.reverse_reverse, List.reverse_reverse] at h
    exact lev_le_of_edits h

lemma lev_comm (a b : List Char) : lev a b = lev b a := by
  apply le_antisymm
  · exact lev_le_of_edits (edits_symm (edits_of_lev (b.length + a.length) b a le_rfl))
  · exact lev_le_of_edits (edits_symm (edits_of_lev (a.length + b.length) a b le_rfl))

lemma rowFrom_expand (u v : List Char) (as : List Char) :
    rowFrom u v as = lev u v :: (rowFrom u v as).tail := by
  cases as <;> simp [rowFrom]

lemma fillRow_correct (bc : Char) (u : List Char) : ∀ (as v : List Char),
    fillRow bc as (lev u v) ((rowFrom u v as).tail) (lev (bc :: u) v)
      = (rowFrom (bc :: u) v as).tail := by
  intro as
  induction as with
  | nil => intro v; simp [fillRow, rowFrom]
  | cons c rest ih =>
    intro v
    have hl : (rowFrom u v (c :: rest)).tail = rowFrom u (c :: v) rest := by simp [rowFrom]
    have hr : (rowFrom (bc :: u) v (c :: rest)).tail = rowFrom (bc :: u) (c :: v) rest := by
      simp [rowFrom]
    rw [hl, hr]
    rw [rowFrom_expand u (c :: v) rest]
    show (if bc = c then lev u v
          else min (lev u v + 1) (min (lev (bc :: u) v + 1) (lev u (c :: v) + 1)))
        :: fillRow bc rest (lev u (c :: v)) ((rowFrom u (c :: v) rest).tail)
             (if bc = c then lev u v
              else min (lev u v + 1) (min (lev (bc :: u) v + 1) (lev u (c :: v) + 1)))
      = rowFrom (bc :: u) (c :: v) rest
    rw [← lev_cons_cons bc c u v]
    rw [ih (c :: v)]
    exact (rowFrom_expand (bc :: u) (c :: v) rest).symm

lemma nextRow_correct (bc : Char) (a u : List Char) :
    nextRow bc a (rowFrom u [] a) = rowFrom (bc :: u) [] a := by
  have h1 : lev u [] + 1 = lev (bc :: u) [] := by rw [lev_nil_right, lev_nil_right]; simp
  rw [rowFrom_expand u [] a]
  show (lev u [] + 1) :: fillRow bc a (lev u []) ((rowFrom u [] a).tail) (lev u [] + 1)
      = rowFrom (bc :: u) [] a
  rw [h1, fillRow_correct bc u a []]
  exact (rowFrom_expand (bc :: u) [] a).symm

lemma foldl_rowFrom (a : List Char) : ∀ (b u : List Char),
    b.foldl (fun r bc => nextRow bc a r) (rowFrom u [] a) = rowFrom (b.reverse ++ u) [] a := by
  intro b
  induction b with
  | nil => intro u; simp
  | cons bc b ih =>
    intro u
    rw [List.foldl_cons, nextRow_correct bc a u, ih (bc :: u)]
    congr 1
    simp

lemma rowFrom_getD_last (u : List Char) : ∀ (as v : List Char),
    (rowFrom u v as).getD as.length 0 = lev u (as.reverse ++ v) := by
  intro as
  induction as with
  | nil => intro v; simp [rowFrom]
  | cons c rest ih =>
    intro v
    show (lev u v :: rowFrom u (c :: v) rest).getD (rest.length + 1) 0
        = lev u ((c :: rest).reverse ++ v)
    rw [List.getD_cons_succ, ih (c :: v)]
    congr 1
    simp

lemma rowFrom_empty_left (as : List Char) : ∀ v : List Char,
    rowFrom [] v as = List.range' v.length (as.length + 1) := by
  induction as with
  | nil => intro v; simp [rowFrom, lev_nil_left, List.range']
  | cons c rest ih =>
    intro v
    show lev [] v :: rowFrom [] (c :: v) rest = List.range' v.length (rest.length + 1 + 1)
    rw [lev_nil_left, ih (c :: v), List.range'_succ]
    simp
    rw [List.range'_succ, List.range'_succ]

lemma levenshteinDistance_eq_lev (a b : List Char) : levenshteinDistance a b = lev a b := by
  unfold levenshteinDistance
  have h0 : List.range (a.length + 1) = rowFrom [] [] a := by
    rw [rowFrom_empty_left a [], List.range_eq_range']
    rfl
  rw [h0, foldl_rowFrom a b [], List.append_nil, rowFrom_getD_last b.reverse a [], List.append_nil,
    lev_comm, lev_reverse_reverse]

/-- Claim C4: the dynamic-programming `levenshteinDistance` of App.tsx computes exactly
the reference recursive Levenshtein distance on all pairs of strings; in particular the
distance from the empty string to `s` (either way round) is the length of `s`, the
distance from any string to itself is 0, and the distance from "kitten" to "sitting"
is 3. -/
theorem levenshtein_correct :
    (∀ a b : List Char, levenshteinDistance a b = lev a b)
    ∧ (∀ s : List Char, levenshteinDistance [] s = s.length ∧ levenshteinDistance s [] = s.length)
    ∧ (∀ x : List Char, levenshteinDistance x x = 0)
    ∧ levenshteinDistance ['k', 'i', 't', 't', 'e', 'n'] ['s', 'i', 't', 't', 'i', 'n', 'g'] = 3 := by
  refine ⟨levenshteinDistance_eq_lev, ?_, ?_, by decide⟩
  · intro s
    constructor
    · rw [levenshteinDistance_eq_lev, lev_nil_left]
    · rw [levenshteinDistance_eq_lev, lev_nil_right]
  · intro x
    rw [levenshteinDistance_eq_lev, lev_self]

lemma mapWithIndex_length (f : Nat → Player → Player) : ∀ (k : Nat) (l : List Player),
    (mapWithIndex f k l).length = l.length := by
  intro k l
  induction l generalizing k with
  | nil => rfl
  | cons p ps ih => simp [mapWithIndex, ih]

lemma mapWithIndex_getD (f : Nat → Player → Player) (d : Player) :
    ∀ (l : List Player) (k i : Nat), i < l.length →
      (mapWithIndex f k l).getD i d = f (k + i) (l.getD i d) := by
  intro l
  induction l with
  | nil => intro k i h; simp at h
  | cons p ps ih =>
    intro k i h
    cases i with
    | zero => simp [mapWithIndex]
    | succ i =>
      have hi : i < ps.length := by simp only [List.length_cons] at h; omega
      show (f k p :: mapWithIndex f (k + 1) ps).getD (i + 1) d
          = f (k + (i + 1)) ((p :: ps).getD (i + 1) d)
      rw [List.getD_cons_succ, List.getD_cons_succ, ih (k + 1) i hi]
      congr 1
      omega

lemma updateScore_getD (s : AppState) (pts : Int) (d : Player) (i : Nat)
    (h : i < s.players.length) :
    (updateCurrentPlayerScore s pts).players.getD i d
      = (if i = s.currentPlayerIndex
         then { s.players.getD i d with score := (s.players.getD i d).score + pts }
         else s.players.getD i d) := by
  unfold updateCurrentPlayerScore
  simp only
  rw [mapWithIndex_getD _ d s.players 0 i h]
  simp

lemma updateScore_length (s : AppState) (pts : Int) :
    (updateCurrentPlayerScore s pts).players.length = s.players.length := by
  unfold updateCurrentPlayerScore
  simp only
  rw [mapWithIndex_length]

/-- Claim C8: `skip` is a no-op outside `PLAYING`; in `PLAYING` it sets the status to
`FAILURE` unconditionally, clamps the life counter at `max 0 (lives - 1)`, and charges
the current player 5 points while leaving every other player's score unchanged. -/
theorem skip_semantics (s : AppState) :
    (s.gameStatus ≠ GameStatus.PLAYING → handleSkip s = s)
    ∧ (s.gameStatus = GameStatus.PLAYING →
        (handleSkip s).gameStatus = GameStatus.FAILURE
        ∧ (handleSkip s).lives = max 0 (s.lives - 1)
        ∧ (handleSkip s).players.length = s.players.length
        ∧ ∀ i, i < s.players.length →
            ((handleSkip s).players.getD i defaultPlayer).score
              = (s.players.getD i defaultPlayer).score
                + (if i = s.currentPlayerIndex then -5 else 0)) := by
  constructor
  · intro h
    simp [handleSkip, h]
  · intro h
    have hskip : handleSkip s
        = updateCurrentPlayerScore
            { s with lives := max 0 (s.lives - 1), gameStatus := GameStatus.FAILURE } (-5) := by
      simp [handleSkip, h]
    refine ⟨?_, ?_, ?_, ?_⟩
    · rw [hskip]; rfl
    · rw [hskip]; rfl
    · rw [hskip, updateScore_length]
    · intro i hi
      rw [hskip, updateScore_getD _ _ _ _ (by simpa using hi)]
      by_cases hc : i = s.currentPlayerIndex <;> simp [hc]

/-- Witness for C8 at a concrete mid-session state. -/
theorem skip_semantics_witness :
    playingState.gameStatus = GameStatus.PLAYING
    ∧ (handleSkip playingState).gameStatus = GameStatus.FAILURE
    ∧ (handleSkip playingState).lives = max 0 (playingState.lives - 1)
    ∧ ((handleSkip playingState).players.getD 1 defaultPlayer).score
        = (playingState.players.getD 1 defaultPlayer).score + (-5) := by
  have h := (skip_semantics playingState).2 (by decide)
  refine ⟨by decide, h.1, h.2.1, ?_⟩
  have h4 := h.2.2.2 1 (by decide)
  simpa using h4

/-- Claim C9, amended: `submitGuess` is a no-op when the guess is empty after trimming
or when the round is not in `PLAYING`, and `addPlayer` is a no-op when the typed name
is empty after trimming.  (The session-active rejection of `addPlayer` claimed by the
specification is not present in the function itself — see the counterexample.) -/
theorem invalid_input_noop :
    (∀ s : AppState, trimList s.userGuess = [] → handleSubmitGuess s = s)
    ∧ (∀ s : AppState, s.gameStatus ≠ GameStatus.PLAYING → handleSubmitGuess s = s)
    ∧ (∀ (s : AppState) (newId : Nat), trimList s.newPlayerName = [] → addPlayer s newId = s) := by
  refine ⟨?_, ?_, ?_⟩
  · intro s hg
    unfold handleSubmitGuess
    rcases htc : s.targetCountry with _ | tc
    · rfl
    · simp [hg]
  · intro s hst
    unfold handleSubmitGuess
    rcases htc : s.targetCountry with _ | tc
    · rfl
    · by_cases hg : trimList s.userGuess = []
      · simp [hg]
      · simp [hg, hst]
  · intro s newId h
    simp [addPlayer, h]

/-- Witness for the amended C9: an all-whitespace guess in a live round changes
nothing. -/
theorem invalid_input_noop_witness :
    trimList [' '] = []
    ∧ handleSubmitGuess { playingState with userGuess := [' '] }
        = { playingState with userGuess := [' '] } := by
  exact ⟨by decide, invalid_input_noop.1 { playingState with userGuess := [' '] } (by decide)⟩

/-- Counterexample to claim C9 as stated: in a state that is by every measure
mid-session (status `PLAYING`, a target on screen, a non-empty roster), calling the
`addPlayer` handler with a non-empty name appends a player — the function has no
session-active guard (the UI merely stops rendering the form once a round starts). -/
theorem invalid_input_counterexample :
    playingState.gameStatus = GameStatus.PLAYING
    ∧ playingState.targetCountry ≠ none
    ∧ playingState.players ≠ []
    ∧ addPlayer { playingState with newPlayerName := ['B', 'o', 'b'] } 99
        ≠ { playingState with newPlayerName := ['B', 'o', 'b'] }
    ∧ (addPlayer { playingState with newPlayerName := ['B', 'o', 'b'] } 99).players.length
        = playingState.players.length + 1 := by
  refine ⟨by decide, by decide, by decide, by decide, by decide⟩

/-- Claim C10: a correct guess submitted in `PLAYING` changes only the round status
(to `SUCCESS`) and the current player's score (+5); lives, hints, target, resolved
facts, message, input, turn pointer, leaderboard, and every other player's record are
untouched, and the current player keeps their name. -/
theorem correct_guess_frame (s : AppState) (tc : CountryFeature)
    (hst : s.gameStatus = GameStatus.PLAYING)
    (htc : s.targetCountry = some tc)
    (hg : trimList s.userGuess ≠ [])
    (hc : submitIsCorrect s tc = true) :
    (handleSubmitGuess s).gameStatus = GameStatus.SUCCESS
    ∧ (handleSubmitGuess s).lives = s.lives
    ∧ (handleSubmitGuess s).hints = s.hints
    ∧ (handleSubmitGuess s).targetCountry = s.targetCountry
    ∧ (handleSubmitGuess s).countryDetails = s.countryDetails
    ∧ (handleSubmitGuess s).message = s.message
    ∧ (handleSubmitGuess s).userGuess = s.userGuess
    ∧ (handleSubmitGuess s).currentPlayerIndex = s.currentPlayerIndex
    ∧ (handleSubmitGuess s).leaderboard = s.leaderboard
    ∧ (handleSubmitGuess s).players.length = s.players.length
    ∧ (∀ i, i < s.players.length → i ≠ s.currentPlayerIndex →
        (handleSubmitGuess s).players.getD i defaultPlayer = s.players.getD i defaultPlayer)
    ∧ (s.currentPlayerIndex < s.players.length →
        ((handleSubmitGuess s).players.getD s.currentPlayerIndex defaultPlayer).score
          = (s.players.getD s.currentPlayerIndex defaultPlayer).score + 5
        ∧ ((handleSubmitGuess s).players.getD s.currentPlayerIndex defaultPlayer).name
          = (s.players.getD s.currentPlayerIndex defaultPlayer).name) := by
  have hsub : handleSubmitGuess s
      = updateCurrentPlayerScore { s with gameStatus := GameStatus.SUCCESS } 5 := by
    unfold handleSubmitGuess
    rw [htc]
    simp [hg, hst, hc]
  rw [hsub]
  refine ⟨rfl, rfl, rfl, rfl, rfl, rfl, rfl, rfl, rfl, ?_, ?_, ?_⟩
  · rw [updateScore_length]
  · intro i hi hne
    rw [updateScore_getD _ _ _ _ (by simpa using hi)]
    simp [hne]
  · intro hcur
    rw [updateScore_getD _ _ _ _ (by simpa using hcur)]
    simp

/-- Witness for C10: guessing exactly "France" against the France round succeeds and
leaves the lives untouched. -/
theorem correct_guess_frame_witness :
    submitIsCorrect { playingState with userGuess := ['F', 'r', 'a', 'n', 'c', 'e'] } franceFeature
      = true
    ∧ (handleSubmitGuess { playingState with userGuess := ['F', 'r', 'a', 'n', 'c', 'e'] }).gameStatus
        = GameStatus.SUCCESS
    ∧ (handleSubmitGuess { playingState with userGuess := ['F', 'r', 'a', 'n', 'c', 'e'] }).lives
        = playingState.lives := by
  have h := correct_guess_frame
    { playingState with userGuess := ['F', 'r', 'a', 'n', 'c', 'e'] } franceFeature
    (by decide) (by decide) (by decide) (by decide)
  exact ⟨by decide, h.1, h.2.1⟩

/-- Claim C1, amended: the judge accepts a guess against an acceptable name exactly
when the name is non-empty and, after normalising the GUESS by trimming and
lower-casing but the NAME by lower-casing only (the source never trims the name),
one of the three acceptance rules fires: exact equality, substring containment for
guesses longer than 3 characters, or Levenshtein distance within the threshold
determined by the name's length (0 up to length 3, 1 up to 7, 2 up to 12, else 3). -/
theorem match_judge_characterization (g nm : List Char) :
    judgeCode g nm = true ↔
      (nm ≠ [] ∧
        (trimList (lowerList g) = lowerList nm
         ∨ (3 < (trimList (lowerList g)).length
             ∧ hasSub (lowerList nm) (trimList (lowerList g)) = true)
         ∨ lev (lowerList nm) (trimList (lowerList g)) ≤ levThreshold (lowerList nm).length)) := by
  unfold judgeCode
  simp only [checkMatch]
  by_cases hn : nm = []
  · subst hn; simp
  · rw [if_neg hn]
    set G := trimList (lowerList g) with hG
    set N := lowerList nm with hN
    by_cases h1 : N = G
    · simp [h1, hn]
    · rw [if_neg h1]
      by_cases h2 : (decide (3 < G.length) && hasSub N G) = true
      · rw [if_pos h2]
        simp only [Bool.and_eq_true, decide_eq_true_eq] at h2
        simp [hn, h2]
      · rw [if_neg h2]
        simp only [Bool.and_eq_true, decide_eq_true_eq, not_and] at h2
        have hne : ¬(G = N) := fun h => h1 h.symm
        have hD2 : ¬(3 < G.length ∧ hasSub N G = true) := by
          rintro ⟨ha, hb⟩
          exact h2 ha hb
        have hiff : (nm ≠ [] ∧
            (G = N ∨ (3 < G.length ∧ hasSub N G = true) ∨ lev N G ≤ levThreshold N.length))
            ↔ lev N G ≤ levThreshold N.length := by
          constructor
          · rintro ⟨-, hd⟩
            rcases hd with hd | hd | hd
            · exact absurd hd hne
            · exact absurd hd hD2
            · exact hd
          · intro hd
            exact ⟨hn, Or.inr (Or.inr hd)⟩
        rw [hiff, ← levenshteinDistance_eq_lev]
        unfold levThreshold
        by_cases hl3 : N.length ≤ 3
        · simp [hl3, Nat.le_zero]
        · by_cases hl7 : N.length ≤ 7
          · simp [hl3, hl7]
          · by_cases hl12 : N.length ≤ 12
            · simp [hl3, hl7, hl12]
            · simp [hl3, hl7, hl12]

/-- Counterexample to claim C1 as stated: guessing "ab" against the acceptable name
" ab" (leading space).  Trimming both sides, as the claim specifies, makes them equal,
so the claimed judge accepts; the code lower-cases but never trims the name, the
3-character residue fails every rule, and the judge rejects. -/
theorem match_judge_counterexample :
    trimList (lowerList [' ', 'a', 'b']) = trimList (lowerList ['a', 'b'])
    ∧ judgeSpec ['a', 'b'] [' ', 'a', 'b'] = true
    ∧ judgeCode ['a', 'b'] [' ', 'a', 'b'] = false := by
  refine ⟨by decide, by decide, by decide⟩

/-- Claim C3, amended: asynchronous completions perform NO stale-round check — a
country-facts response always overwrites `countryDetails` with its payload and a hint
response is always appended to the hint list, even when issued for a round that is no
longer the active one. -/
theorem stale_response_applied (s : AppState) (fr : FactsResponse) (hr : HintResponse)
    (hstale1 : fr.forRound ≠ s.round) (hstale2 : hr.forRound ≠ s.round) :
    (applyFactsResponse s fr).countryDetails = some fr.details
    ∧ (applyHintResponse s hr).hints = s.hints ++ [hr.text] :=
  ⟨rfl, rfl⟩

/-- Witness for the amended C3 at a concrete stale response. -/
theorem stale_response_applied_witness :
    (1 : Nat) ≠ playingState.round
    ∧ (applyFactsResponse playingState
        { forRound := 1,
          details := { flag := "", name := ['I', 't', 'a', 'l', 'y'], capital := none,
                       region := none } }).countryDetails
      = some { flag := "", name := ['I', 't', 'a', 'l', 'y'], capital := none, region := none } := by
  refine ⟨by decide, ?_⟩
  exact (stale_response_applied playingState
    { forRound := 1,
      details := { flag := "", name := ['I', 't', 'a', 'l', 'y'], capital := none,
                   region := none } }
    { forRound := 1, text := [] } (by decide) (by decide)).1

/-- Counterexample to claim C3 as stated: the round has moved on (current ghost round
2, France on screen with resolved French facts), yet delivering the facts response
issued during round 1 for Italy is not discarded — it overwrites the current round's
facts with Italy's. -/
theorem stale_response_counterexample :
    (1 : Nat) ≠ playingState.round
    ∧ applyFactsResponse playingState
        { forRound := 1,
          details := { flag := "", name := ['I', 't', 'a', 'l', 'y'], capital := none,
                       region := none } }
      ≠ playingState
    ∧ Option.map CountryDetails.name
        (applyFactsResponse playingState
          { forRound := 1,
            details := { flag := "", name := ['I', 't', 'a', 'l', 'y'], capital := none,
                         region := none } }).countryDetails
      = some ['I', 't', 'a', 'l', 'y']
    ∧ Option.map CountryDetails.name playingState.countryDetails
      = some ['F', 'r', 'a', 'n', 'c', 'e'] := by
  refine ⟨by decide, by decide, by decide, by decide⟩

/-- Claim C5: for non-negative bounding-box extents on a positive canvas, the viewport
scale equals `clamp(0.85 / max(dx/w, dy/h), 1, 50)` with a zero ratio falling to the
upper bound; a bbox spanning the full canvas gives scale 1, a point-like bbox gives
scale 50, and the computation never produces NaN (nor divides by zero). -/
theorem viewport_scale (dx dy w h : ℚ) (hdx : 0 ≤ dx) (hdy : 0 ≤ dy)
    (hw : 0 < w) (hh : 0 < h) :
    frameScale dx dy w h = JSNum.fin (frameScaleSpec dx dy w h)
    ∧ frameScale dx dy w h ≠ JSNum.nan
    ∧ (dx = w → dy = h → frameScale dx dy w h = JSNum.fin 1)
    ∧ (dx = 0 → dy = 0 → frameScale dx dy w h = JSNum.fin 50) := by
  have hwne : w ≠ 0 := ne_of_gt hw
  have hhne : h ≠ 0 := ne_of_gt hh
  have hmain : frameScale dx dy w h = JSNum.fin (frameScaleSpec dx dy w h) := by
    unfold frameScale frameScaleSpec
    rw [show jsDiv (JSNum.fin dx) (JSNum.fin w) = JSNum.fin (dx / w) from by simp [jsDiv, hwne]]
    rw [show jsDiv (JSNum.fin dy) (JSNum.fin h) = JSNum.fin (dy / h) from by simp [jsDiv, hhne]]
    by_cases hr : max (dx / w) (dy / h) = 0
    · simp only [jsMax, hr]
      norm_num [jsDiv, jsMin, jsMax]
    · simp only [jsMax, if_neg hr]
      simp [jsDiv, jsMin, jsMax, hr]
  refine ⟨hmain, by rw [hmain]; simp, ?_, ?_⟩
  · intro h1 h2
    subst h1; subst h2
    rw [hmain]
    unfold frameScaleSpec
    rw [div_self hwne, div_self hhne]
    norm_num
  · intro h1 h2
    subst h1; subst h2
    rw [hmain]
    unfold frameScaleSpec
    norm_num

/-- Witness for C5: a point-like bbox frames at the upper clamp bound 50, a
full-canvas bbox frames at 1. -/
theorem viewport_scale_witness :
    (0 : ℚ) < 2
    ∧ frameScale 0 0 2 3 = JSNum.fin 50
    ∧ frameScale 2 3 2 3 = JSNum.fin 1 := by
  refine ⟨by norm_num, ?_, ?_⟩
  · exact (viewport_scale 0 0 2 3 le_rfl le_rfl (by norm_num) (by norm_num)).2.2.2 rfl rfl
  · exact (viewport_scale 2 3 2 3 (by norm_num) (by norm_num) (by norm_num)
      (by norm_num)).2.2.1 rfl rfl

/-- Claim C6: starting a session resets the current-turn pointer to player 0; every
round start that is not the session's first advances it to `(index + 1) mod
playerCount`; consequently a 3-player session visits the turn indices
0, 1, 2, 0, 1, 2 over its first six rounds. -/
theorem turn_rotation :
    (∀ s : AppState, (startGameSession s).currentPlayerIndex = 0)
    ∧ (∀ s : AppState, s.geoData.isSome = true →
        (startNewRound s false).currentPlayerIndex
          = (s.currentPlayerIndex + 1) % s.players.length)
    ∧ [(roundsOf3 0).currentPlayerIndex, (roundsOf3 1).currentPlayerIndex,
       (roundsOf3 2).currentPlayerIndex, (roundsOf3 3).currentPlayerIndex,
       (roundsOf3 4).currentPlayerIndex, (roundsOf3 5).currentPlayerIndex]
      = [0, 1, 2, 0, 1, 2] := by
  refine ⟨?_, ?_, by decide⟩
  · intro s
    unfold startGameSession startNewRound
    rcases h : s.geoData with _ | gd <;> simp [h]
  · intro s hg
    unfold startNewRound
    rcases h : s.geoData with _ | gd
    · rw [h] at hg; simp at hg
    · simp [h]

/-- Witness for C6: a state with loaded map data satisfies the rotation equation. -/
theorem turn_rotation_witness :
    menuState3.geoData.isSome = true
    ∧ (startNewRound menuState3 false).currentPlayerIndex
        = (menuState3.currentPlayerIndex + 1) % menuState3.players.length := by
  exact ⟨by decide, turn_rotation.2.1 menuState3 (by decide)⟩

lemma mem_insertEntry (e x : LBEntry) (l : List LBEntry) :
    x ∈ insertEntry e l ↔ x = e ∨ x ∈ l := by
  induction l with
  | nil => simp [insertEntry]
  | cons h t ih =>
    by_cases hc : h.score ≤ e.score
    · simp [insertEntry, hc]
    · simp [insertEntry, hc, ih]
      tauto

lemma sortEntries_cons (h : LBEntry) (t : List LBEntry) :
    sortEntries (h :: t) = insertEntry h (sortEntries t) := rfl

lemma mem_sortEntries (x : LBEntry) (l : List LBEntry) : x ∈ sortEntries l ↔ x ∈ l := by
  induction l with
  | nil => simp [sortEntries]
  | cons h t ih => rw [sortEntries_cons, mem_insertEntry]; simp [ih]

lemma pairwise_insertEntry (e : LBEntry) (l : List LBEntry)
    (hl : l.Pairwise (fun a b => b.score ≤ a.score)) :
    (insertEntry e l).Pairwise (fun a b => b.score ≤ a.score) := by
  induction l with
  | nil => simp [insertEntry]
  | cons h t ih =>
    rw [List.pairwise_cons] at hl
    by_cases hc : h.score ≤ e.score
    · simp only [insertEntry, if_pos hc]
      rw [List.pairwise_cons]
      constructor
      · intro b hb
        rcases List.mem_cons.mp hb with rfl | hb
        · exact hc
        · exact le_trans (hl.1 b hb) hc
      · rw [List.pairwise_cons]
        exact ⟨hl.1, hl.2⟩
    · simp only [insertEntry, if_neg hc]
      rw [List.pairwise_cons]
      refine ⟨?_, ih hl.2⟩
      intro b hb
      rcases (mem_insertEntry e b t).mp hb with rfl | hb
      · omega
      · exact hl.1 b hb

lemma pairwise_sortEntries (l : List LBEntry) :
    (sortEntries l).Pairwise (fun a b => b.score ≤ a.score) := by
  induction l with
  | nil => simp [sortEntries]
  | cons h t ih => rw [sortEntries_cons]; exact pairwise_insertEntry h (sortEntries t) ih

lemma filter_insertEntry (q : Int) (e : LBEntry) (l : List LBEntry) :
    (insertEntry e l).filter (fun x => decide (x.score = q))
      = if e.score = q then e :: l.filter (fun x => decide (x.score = q))
        else l.filter (fun x => decide (x.score = q)) := by
  induction l with
  | nil => by_cases he : e.score = q <;> simp [insertEntry, he]
  | cons h t ih =>
    by_cases hc : h.score ≤ e.score
    · rw [show insertEntry e (h :: t) = e :: h :: t from by simp [insertEntry, hc]]
      by_cases he : e.score = q <;> simp [List.filter_cons, he]
    · rw [show insertEntry e (h :: t) = h :: insertEntry e t from by simp [insertEntry, hc]]
      rw [List.filter_cons, List.filter_cons, ih]
      by_cases he : e.score = q
      · have hh : ¬(h.score = q) := by omega
        simp [he, hh]
      · by_cases hh : h.score = q <;> simp [he, hh]

lemma filter_sortEntries (q : Int) (l : List LBEntry) :
    (sortEntries l).filter (fun x => decide (x.score = q))
      = l.filter (fun x => decide (x.score = q)) := by
  induction l with
  | nil => rfl
  | cons h t ih =>
    rw [sortEntries_cons, filter_insertEntry]
    by_cases hh : h.score = q <;> simp [List.filter_cons, hh, ih]

/-- Claim C7: `handleEndGame` records only entries with positive score, merges them
with the existing ledger, sorts descending by score keeping ties in their relative
insertion order (stated through the filter-per-score characterisation of a stable
sort), and truncates to the first 50; hence the resulting ledger has length at most
50, is non-increasing by score, and only ever contains old ledger entries or
positive-score entries of the session roster. -/
theorem leaderboard_record (s : AppState) (today : String) :
    (handleEndGame s today).leaderboard.length ≤ 50
    ∧ (handleEndGame s today).leaderboard.Pairwise (fun a b => b.score ≤ a.score)
    ∧ (handleEndGame s today).leaderboard.all
        (fun e => decide (e ∈ s.leaderboard)
          || (decide (0 < e.score) && decide (e.name ∈ s.players.map Player.name))) = true
    ∧ (∀ q : Int,
        (sortEntries (s.leaderboard ++
            (s.players.map
              (fun p => { name := p.name, score := p.score, date := today : LBEntry })).filter
              (fun e => decide (0 < e.score)))).filter (fun x => decide (x.score = q))
          = (s.leaderboard ++
            (s.players.map
              (fun p => { name := p.name, score := p.score, date := today : LBEntry })).filter
              (fun e => decide (0 < e.score))).filter (fun x => decide (x.score = q)))
    ∧ (handleEndGame s today).leaderboard
        = (sortEntries (s.leaderboard ++
            (s.players.map
              (fun p => { name := p.name, score := p.score, date := today : LBEntry })).filter
              (fun e => decide (0 < e.score)))).take 50 := by
  have hlb : (handleEndGame s today).leaderboard
      = (sortEntries (s.leaderboard ++
          (s.players.map
            (fun p => { name := p.name, score := p.score, date := today : LBEntry })).filter
            (fun e => decide (0 < e.score)))).take 50 := rfl
  refine ⟨?_, ?_, ?_, fun q => filter_sortEntries q _, hlb⟩
  · rw [hlb, List.length_take]
    omega
  · rw [hlb]
    exact (pairwise_sortEntries _).sublist (List.take_sublist 50 _)
  · rw [hlb, List.all_eq_true]
    intro e he
    have he2 : e ∈ sortEntries (s.leaderboard ++
        (s.players.map
          (fun p => { name := p.name, score := p.score, date := today : LBEntry })).filter
          (fun x => decide (0 < x.score))) := (List.take_sublist 50 _).subset he
    rw [mem_sortEntries, List.mem_append] at he2
    rcases he2 with he2 | he2
    · simp [he2]
    · rw [List.mem_filter] at he2
      rcases he2 with ⟨hmem, hpos⟩
      rw [List.mem_map] at hmem
      rcases hmem with ⟨p, hp, rfl⟩
      simp only [decide_eq_true_eq] at hpos
      have hname : p.name ∈ s.players.map Player.name := List.mem_map_of_mem Player.name hp
      simp [hpos, hname]

lemma updateScore_gameStatus (s : AppState) (pts : Int) :
    (updateCurrentPlayerScore s pts).gameStatus = s.gameStatus := rfl

lemma updateScore_lives (s : AppState) (pts : Int) :
    (updateCurrentPlayerScore s pts).lives = s.lives := rfl

lemma handleSkip_playing (s : AppState) (hp : s.gameStatus = GameStatus.PLAYING) :
    (handleSkip s).gameStatus = GameStatus.FAILURE
    ∧ (handleSkip s).lives = max 0 (s.lives - 1) := by
  have h : handleSkip s
      = updateCurrentPlayerScore
          { s with lives := max 0 (s.lives - 1), gameStatus := GameStatus.FAILURE } (-5) := by
    simp [handleSkip, hp]
  rw [h, updateScore_gameStatus, updateScore_lives]
  exact ⟨rfl, rfl⟩

lemma submit_guard_noop (s : AppState) (g : List Char)
    (h : s.targetCountry = none ∨ trimList g = [] ∨ s.gameStatus ≠ GameStatus.PLAYING) :
    stepEv s (GEvent.guess g) = { s with userGuess := g } := by
  simp only [stepEv]
  unfold handleSubmitGuess
  rcases htc : s.targetCountry with _ | tc
  · simp [htc]
  · rcases h with h | h | h
    · rw [htc] at h; exact absurd h (by simp)
    · simp [htc, h]
    · by_cases hg : trimList g = []
      · simp [htc, hg]
      · simp [htc, hg, h]

lemma submit_playing_correct (s : AppState) (tc : CountryFeature) (g : List Char)
    (hp : s.gameStatus = GameStatus.PLAYING) (htc : s.targetCountry = some tc)
    (hg : trimList g ≠ []) (hc : submitIsCorrect { s with userGuess := g } tc = true) :
    stepEv s (GEvent.guess g)
      = updateCurrentPlayerScore
          { s with userGuess := g, gameStatus := GameStatus.SUCCESS } 5 := by
  simp only [stepEv]
  unfold handleSubmitGuess
  simp only [htc, hp] at hc ⊢
  simp [hg, hc]

lemma submit_playing_wrong (s : AppState) (tc : CountryFeature) (g : List Char)
    (hp : s.gameStatus = GameStatus.PLAYING) (htc : s.targetCountry = some tc)
    (hg : trimList g ≠ []) (hc : submitIsCorrect { s with userGuess := g } tc = false) :
    stepEv s (GEvent.guess g)
      = (if s.lives - 1 ≤ 0
         then { updateCurrentPlayerScore { s with userGuess := g, lives := s.lives - 1 } (-5) with
                  gameStatus := GameStatus.FAILURE }
         else { updateCurrentPlayerScore { s with userGuess := g, lives := s.lives - 1 } (-5) with
                  message := some { text := ("Incorrect!").toList,
                                    kind := MessageKind.error } }) := by
  simp only [stepEv]
  unfold handleSubmitGuess
  simp only [htc, hp] at hc ⊢
  simp [hg, hc]

lemma stepEv_terminal (s : AppState) (e : GEvent) (h : s.gameStatus ≠ GameStatus.PLAYING) :
    (stepEv s e).gameStatus = s.gameStatus ∧ (stepEv s e).lives = s.lives := by
  cases e with
  | skipRound => simp [stepEv, handleSkip, h]
  | guess g => rw [submit_guard_noop s g (Or.inr (Or.inr h))]; exact ⟨rfl, rfl⟩

lemma isCorrectSubmission_nonplaying (s : AppState) (g : List Char)
    (h : s.gameStatus ≠ GameStatus.PLAYING) : isCorrectSubmission s g = false := by
  unfold isCorrectSubmission
  rcases htc : s.targetCountry with _ | tc
  · rfl
  · simp [h]

lemma runEvents_terminal (evs : List GEvent) : ∀ (s : AppState),
    s.gameStatus ≠ GameStatus.PLAYING →
    (runEvents s evs).gameStatus = s.gameStatus
    ∧ (runEvents s evs).lives = s.lives
    ∧ skippedWhilePlaying s evs = false
    ∧ correctGuessOccurred s evs = false := by
  induction evs with
  | nil => intro s h; exact ⟨rfl, rfl, rfl, rfl⟩
  | cons e rest ih =>
    intro s h
    have hstep := stepEv_terminal s e h
    have hnext : (stepEv s e).gameStatus ≠ GameStatus.PLAYING := by rw [hstep.1]; exact h
    have ihr := ih (stepEv s e) hnext
    refine ⟨?_, ?_, ?_, ?_⟩
    · show (runEvents (stepEv s e) rest).gameStatus = s.gameStatus
      rw [ihr.1, hstep.1]
    · show (runEvents (stepEv s e) rest).lives = s.lives
      rw [ihr.2.1, hstep.2]
    · cases e with
      | skipRound => simp [skippedWhilePlaying, h, ihr.2.2.1]
      | guess g => simp [skippedWhilePlaying, ihr.2.2.1]
    · cases e with
      | guess g => simp [correctGuessOccurred, isCorrectSubmission_nonplaying s g h, ihr.2.2.2]
      | skipRound => simp [correctGuessOccurred, ihr.2.2.2]

lemma run_master (evs : List GEvent) : ∀ (s : AppState), GoodRound s →
    GoodRound (runEvents s evs)
    ∧ ((runEvents s evs).gameStatus = GameStatus.FAILURE ↔
        (s.gameStatus = GameStatus.FAILURE ∨ skippedWhilePlaying s evs = true
          ∨ (runEvents s evs).lives = 0))
    ∧ ((runEvents s evs).gameStatus = GameStatus.SUCCESS ↔
        (s.gameStatus = GameStatus.SUCCESS ∨ correctGuessOccurred s evs = true)) := by
  induction evs with
  | nil =>
    intro s hs
    refine ⟨hs, ?_, ?_⟩
    · constructor
      · intro h; exact Or.inl h
      · rintro (h | h | h)
        · exact h
        · simp [skippedWhilePlaying] at h
        · exact hs.2.2.2 h
    · constructor
      · intro h; exact Or.inl h
      · rintro (h | h)
        · exact h
        · simp [correctGuessOccurred] at h
  | cons e rest ih =>
    intro s hs
    rw [show runEvents s (e :: rest) = runEvents (stepEv s e) rest from rfl]
    by_cases hp : s.gameStatus = GameStatus.PLAYING
    · cases e with
      | skipRound =>
        have hsk := handleSkip_playing s hp
        have hterm := runEvents_terminal rest (stepEv s GEvent.skipRound)
          (by show (handleSkip s).gameStatus ≠ _; rw [hsk.1]; simp)
        have hfst : (runEvents (stepEv s GEvent.skipRound) rest).gameStatus
            = GameStatus.FAILURE := by rw [hterm.1]; exact hsk.1
        have hflv : (runEvents (stepEv s GEvent.skipRound) rest).lives
            = max 0 (s.lives - 1) := by rw [hterm.2.1]; exact hsk.2
        refine ⟨?_, ?_, ?_⟩
        · refine ⟨?_, ?_, ?_, ?_⟩
          · rw [hflv]; omega
          · rw [hflv]; rcases hs with ⟨h1, h2, h3, h4⟩; omega
          · intro hq; rw [hfst] at hq; exact absurd hq (by simp)
          · intro hq; exact hfst
        · rw [hfst]
          constructor
          · intro h
            refine Or.inr (Or.inl ?_)
            simp [skippedWhilePlaying, hp]
          · intro h; rfl
        · rw [hfst]
          constructor
          · intro h; exact absurd h (by simp)
          · rintro (h | h)
            · rw [hp] at h; exact absurd h (by simp)
            · simp only [correctGuessOccurred] at h
              rw [hterm.2.2.2] at h
              simp at h
      | guess g =>
        have hsk : skippedWhilePlaying s (GEvent.guess g :: rest)
            = skippedWhilePlaying (stepEv s (GEvent.guess g)) rest := by
          simp [skippedWhilePlaying]
        rcases htc : s.targetCountry with _ | tc
        · have hstep := submit_guard_noop s g (Or.inl htc)
          have hics : isCorrectSubmission s g = false := by
            unfold isCorrectSubmission; rw [htc]
          have hco : correctGuessOccurred s (GEvent.guess g :: rest)
              = correctGuessOccurred (stepEv s (GEvent.guess g)) rest := by
            simp [correctGuessOccurred, hics]
          rw [hsk, hco, hstep]
          have ihr := ih ({ s with userGuess := g } : AppState) hs
          exact ⟨ihr.1, ihr.2.1, ihr.2.2⟩
        · by_cases hg : trimList g = []
          · have hstep := submit_guard_noop s g (Or.inr (Or.inl hg))
            have hics : isCorrectSubmission s g = false := by
              unfold isCorrectSubmission; rw [htc]; simp [hg]
            have hco : correctGuessOccurred s (GEvent.guess g :: rest)
                = correctGuessOccurred (stepEv s (GEvent.guess g)) rest := by
              simp [correctGuessOccurred, hics]
            rw [hsk, hco, hstep]
            have ihr := ih ({ s with userGuess := g } : AppState) hs
            exact ⟨ihr.1, ihr.2.1, ihr.2.2⟩
          · by_cases hc : submitIsCorrect { s with userGuess := g } tc = true
            · -- correct guess: round resolves to SUCCESS, lives untouched
              have hstep := submit_playing_correct s tc g hp htc hg hc
              have hics : isCorrectSubmission s g = true := by
                have hcx := hc
                rw [htc, hp] at hcx
                unfold isCorrectSubmission
                rw [htc]
                simp [hg, hp, hcx]
              have hst2 : (stepEv s (GEvent.guess g)).gameStatus = GameStatus.SUCCESS := by
                rw [hstep]; rfl
              have hlv2 : (stepEv s (GEvent.guess g)).lives = s.lives := by
                rw [hstep]; rfl
              have hterm := runEvents_terminal rest (stepEv s (GEvent.guess g))
                (by rw [hst2]; simp)
              have hlpos : 0 < s.lives := hs.2.2.1 hp
              refine ⟨?_, ?_, ?_⟩
              · refine ⟨?_, ?_, ?_, ?_⟩
                · rw [hterm.2.1, hlv2]; omega
                · rw [hterm.2.1, hlv2]; exact hs.2.1
                · intro hq; rw [hterm.1, hst2] at hq; exact absurd hq (by simp)
                · intro hq; rw [hterm.2.1, hlv2] at hq; omega
              · rw [hterm.1, hst2, hsk]
                constructor
                · intro h; exact absurd h (by simp)
                · rintro (h | h | h)
                  · rw [hp] at h; exact absurd h (by simp)
                  · rw [hterm.2.2.1] at h; simp at h
                  · rw [hterm.2.1, hlv2] at h; omega
              · rw [hterm.1, hst2]
                constructor
                · intro h
                  refine Or.inr ?_
                  simp [correctGuessOccurred, hics]
                · intro h; rfl
            · -- wrong guess: lose a life (and 5 points)
              have hc2 : submitIsCorrect { s with userGuess := g } tc = false := by
                simpa using hc
              have hstep := submit_playing_wrong s tc g hp htc hg hc2
              have hics : isCorrectSubmission s g = false := by
                have hcx := hc2
                rw [htc] at hcx
                unfold isCorrectSubmission
                rw [htc]
                simp [hcx]
              have hco : correctGuessOccurred s (GEvent.guess g :: rest)
                  = correctGuessOccurred (stepEv s (GEvent.guess g)) rest := by
                simp [correctGuessOccurred, hics]
              have hlpos : 0 < s.lives := hs.2.2.1 hp
              by_cases hl : s.lives - 1 ≤ 0
              · -- last life: round fails with 0 lives
                have hst2 : (stepEv s (GEvent.guess g)).gameStatus = GameStatus.FAILURE := by
                  rw [hstep, if_pos hl]
                have hlv2 : (stepEv s (GEvent.guess g)).lives = s.lives - 1 := by
                  rw [hstep, if_pos hl]; rfl
                have hlv0 : s.lives - 1 = (0 : Int) := by omega
                have hterm := runEvents_terminal rest (stepEv s (GEvent.guess g))
                  (by rw [hst2]; simp)
                refine ⟨?_, ?_, ?_⟩
                · refine ⟨?_, ?_, ?_, ?_⟩
                  · rw [hterm.2.1, hlv2]; omega
                  · rw [hterm.2.1, hlv2]; rcases hs with ⟨h1, h2, h3, h4⟩; omega
                  · intro hq; rw [hterm.1, hst2] at hq; exact absurd hq (by simp)
                  · intro hq; rw [hterm.1, hst2]
                · rw [hterm.1, hst2]
                  constructor
                  · intro h
                    refine Or.inr (Or.inr ?_)
                    rw [hterm.2.1, hlv2, hlv0]
                  · intro h; rfl
                · rw [hterm.1, hst2, hco]
                  constructor
                  · intro h; exact absurd h (by simp)
                  · rintro (h | h)
                    · rw [hp] at h; exact absurd h (by simp)
                    · rw [hterm.2.2.2] at h; simp at h
              · -- a life remains: stay in PLAYING with the transient message
                have hst2 : (stepEv s (GEvent.guess g)).gameStatus = GameStatus.PLAYING := by
                  rw [hstep, if_neg hl]
                  exact hp
                have hlv2 : (stepEv s (GEvent.guess g)).lives = s.lives - 1 := by
                  rw [hstep, if_neg hl]; rfl
                have hgood2 : GoodRound (stepEv s (GEvent.guess g)) := by
                  refine ⟨?_, ?_, ?_, ?_⟩
                  · rw [hlv2]; omega
                  · rw [hlv2]; rcases hs with ⟨h1, h2, h3, h4⟩; omega
                  · intro hq; rw [hlv2]; omega
                  · intro hq; rw [hlv2] at hq; omega
                have ihr := ih (stepEv s (GEvent.guess g)) hgood2
                refine ⟨ihr.1, ?_, ?_⟩
                · rw [hsk]
                  refine ihr.2.1.trans ?_
                  constructor
                  · rintro (h | h | h)
                    · rw [hst2] at h; exact absurd h (by simp)
                    · exact Or.inr (Or.inl h)
                    · exact Or.inr (Or.inr h)
                  · rintro (h | h | h)
                    · rw [hp] at h; exact absurd h (by simp)
                    · exact Or.inr (Or.inl h)
                    · exact Or.inr (Or.inr h)
                · rw [hco]
                  refine ihr.2.2.trans ?_
                  constructor
                  · rintro (h | h)
                    · rw [hst2] at h; exact absurd h (by simp)
                    · exact Or.inr h
                  · rintro (h | h)
                    · rw [hp] at h; exact absurd h (by simp)
                    · exact Or.inr h
    · -- the round is not in PLAYING: every event is (essentially) a no-op
      have hterm := runEvents_terminal (e :: rest) s hp
      rw [show runEvents (stepEv s e) rest = runEvents s (e :: rest) from rfl]
      refine ⟨?_, ?_, ?_⟩
      · rcases hs with ⟨h1, h2, h3, h4⟩
        refine ⟨?_, ?_, ?_, ?_⟩
        · rw [hterm.2.1]; exact h1
        · rw [hterm.2.1]; exact h2
        · intro hq; rw [hterm.1] at hq; rw [hterm.2.1]; exact h3 hq
        · intro hq; rw [hterm.2.1] at hq; rw [hterm.1]; exact h4 hq
      · rw [hterm.1, hterm.2.2.1, hterm.2.1]
        constructor
        · intro h; exact Or.inl h
        · rintro (h | h | h)
          · exact h
          · exact absurd h (by simp)
          · exact hs.2.2.2 h
      · rw [hterm.1, hterm.2.2.2]
        constructor
        · intro h; exact Or.inl h
        · rintro (h | h)
          · exact h
          · exact absurd h (by simp)

/-- Claim C2: from a freshly started round (status `PLAYING`, 3 lives), every sequence
of submit/skip events keeps `lives` in `[0, 3]`; the status is `FAILURE` exactly when
the life counter has hit 0 or skip was pressed during play; and the status is
`SUCCESS` exactly when some guess accepted by the Match Judge was submitted during
play (in particular, only a correct guess can produce `SUCCESS`). -/
theorem round_lifecycle (s0 : AppState) (evs : List GEvent)
    (hst : s0.gameStatus = GameStatus.PLAYING) (hlv : s0.lives = 3) :
    (0 ≤ (runEvents s0 evs).lives ∧ (runEvents s0 evs).lives ≤ 3)
    ∧ ((runEvents s0 evs).gameStatus = GameStatus.FAILURE ↔
        ((runEvents s0 evs).lives = 0 ∨ skippedWhilePlaying s0 evs = true))
    ∧ ((runEvents s0 evs).gameStatus = GameStatus.SUCCESS ↔
        correctGuessOccurred s0 evs = true) := by
  have hgood : GoodRound s0 := by
    refine ⟨by rw [hlv]; norm_num, by rw [hlv], fun _ => by rw [hlv]; norm_num, fun h => ?_⟩
    rw [hlv] at h
    exact absurd h (by norm_num)
  have hm := run_master evs s0 hgood
  refine ⟨⟨hm.1.1, hm.1.2.1⟩, ?_, ?_⟩
  · refine hm.2.1.trans ?_
    rw [hst]
    constructor
    · rintro (h | h | h)
      · exact absurd h (by simp)
      · exact Or.inr h
      · exact Or.inl h
    · rintro (h | h)
      · exact Or.inr (Or.inr h)
      · exact Or.inr (Or.inl h)
  · refine hm.2.2.trans ?_
    rw [hst]
    constructor
    · rintro (h | h)
      · exact absurd h (by simp)
      · exact h
    · intro h
      exact Or.inr h

/-- Witness for C2 at a concrete fresh round and the one-event sequence [skip]. -/
theorem round_lifecycle_witness :
    playingState.gameStatus = GameStatus.PLAYING
    ∧ playingState.lives = 3
    ∧ ((runEvents playingState [GEvent.skipRound]).gameStatus = GameStatus.FAILURE ↔
        ((runEvents playingState [GEvent.skipRound]).lives = 0
          ∨ skippedWhilePlaying playingState [GEvent.skipRound] = true)) := by
  exact ⟨by decide, by decide,
    (round_lifecycle playingState [GEvent.skipRound] (by decide) (by decide)).2.1⟩

/-- Witness for the amended C1: the near-miss guess "Franse" is accepted against
"France" through the distance rule (distance 1, name length 6, threshold 1). -/
theorem match_judge_witness :
    judgeCode ['F', 'r', 'a', 'n', 's', 'e'] ['F', 'r', 'a', 'n', 'c', 'e'] = true := by
  apply (match_judge_characterization ['F', 'r', 'a', 'n', 's', 'e']
    ['F', 'r', 'a', 'n', 'c', 'e']).mpr
  refine ⟨by decide, Or.inr (Or.inr ?_)⟩
  rw [← levenshteinDistance_eq_lev]
  decide
